import Mathlib

/-!
Verification of the usage-quota / admission-control engine of the closetic
repository (`app/decorators.py`: `limit_ai_usage` and `check_ai_usage_status`).

The embedding models UTC instants as civil date-time records (the code is
timezone-fixed to UTC), the usage ledger (`UserActivity` rows) as a list of
events, and the two Python functions as pure Lean functions over that state.
Python's `datetime + timedelta(days=k)` is modelled by iterating a
calendar-correct successor-day function, and `datetime.toordinal`-style
day counts use the standard Gregorian formulas, matching CPython's
`_days_before_year` / `_days_before_month`.
-/

namespace Closetic

/-! ### Calendar arithmetic (UTC, proleptic Gregorian) -/

/-- Gregorian leap-year test, as in Python's `calendar.isleap`. -/
def isLeap (y : Nat) : Bool :=
  (y % 4 == 0 && y % 100 != 0) || y % 400 == 0

/-- Number of days in month `m` (1–12) of year `y`. -/
def daysInMonth (y m : Nat) : Nat :=
  match m with
  | 1 => 31
  | 2 => if isLeap y then 29 else 28
  | 3 => 31
  | 4 => 30
  | 5 => 31
  | 6 => 30
  | 7 => 31
  | 8 => 31
  | 9 => 30
  | 10 => 31
  | 11 => 30
  | 12 => 31
  | _ => 0

/-- Days in all years strictly before year `y` (year 1 ↦ 0),
matching CPython's `_days_before_year`. -/
def daysBeforeYear (y : Nat) : Nat :=
  365 * (y - 1) + (y - 1) / 4 - (y - 1) / 100 + (y - 1) / 400

/-- Days in year `y` strictly before month `m`,
matching CPython's `_days_before_month`. -/
def daysBeforeMonth (y m : Nat) : Nat :=
  (match m with
   | 1 => 0
   | 2 => 31
   | 3 => 59
   | 4 => 90
   | 5 => 120
   | 6 => 151
   | 7 => 181
   | 8 => 212
   | 9 => 243
   | 10 => 273
   | 11 => 304
   | 12 => 334
   | _ => 0)
  + (if 3 ≤ m ∧ isLeap y then 1 else 0)

/-- A UTC civil instant, the shallow embedding of an aware
`datetime` with `tzinfo=timezone.utc` (microseconds are zero throughout the
quota code's arithmetic, so they are omitted). -/
structure DateTime where
  year : Nat
  month : Nat
  day : Nat
  hour : Nat
  minute : Nat
  second : Nat
  deriving DecidableEq, Repr

/-- Field validity of a civil instant. -/
def Valid (t : DateTime) : Prop :=
  1 ≤ t.year ∧ 1 ≤ t.month ∧ t.month ≤ 12 ∧
  1 ≤ t.day ∧ t.day ≤ daysInMonth t.year t.month ∧
  t.hour < 24 ∧ t.minute < 60 ∧ t.second < 60

instance (t : DateTime) : Decidable (Valid t) := by
  unfold Valid; infer_instance

/-- Day number of the civil date (0001-01-01 ↦ 0); Python's
`datetime.toordinal()` minus one. -/
def toOrdinal (t : DateTime) : Nat :=
  daysBeforeYear t.year + daysBeforeMonth t.year t.month + (t.day - 1)

/-- Python's `datetime.weekday()`: Monday ↦ 0 … Sunday ↦ 6.
0001-01-01 is a Monday. -/
def weekday (t : DateTime) : Nat :=
  toOrdinal t % 7

/-- Seconds elapsed since the UTC midnight of the instant's own day. -/
def secsOfDay (t : DateTime) : Nat :=
  t.hour * 3600 + t.minute * 60 + t.second

/-- Total seconds since 0001-01-01T00:00:00Z; a linear encoding of the
instant used to compare timestamps. -/
def toSecs (t : DateTime) : Nat :=
  toOrdinal t * 86400 + secsOfDay t

/-- Truncation to midnight: `dt.replace(hour=0, minute=0, second=0, microsecond=0)`. -/
def midnight (t : DateTime) : DateTime :=
  { t with hour := 0, minute := 0, second := 0 }

/-- Calendar-correct successor day (keeps the time of day), the one-day
step of `dt + timedelta(days=1)`. -/
def nextDay (t : DateTime) : DateTime :=
  if t.day < daysInMonth t.year t.month then { t with day := t.day + 1 }
  else if t.month < 12 then { t with month := t.month + 1, day := 1 }
  else { t with year := t.year + 1, month := 1, day := 1 }

/-- Calendar-correct predecessor day (keeps the time of day), the one-day
step of `dt - timedelta(days=1)`. -/
def prevDay (t : DateTime) : DateTime :=
  if 1 < t.day then { t with day := t.day - 1 }
  else if 1 < t.month then
    { t with month := t.month - 1, day := daysInMonth t.year (t.month - 1) }
  else { t with year := t.year - 1, month := 12, day := 31 }

/-- Day addition: `dt + timedelta(days=n)`. -/
def addDays : Nat → DateTime → DateTime
  | 0, t => t
  | n + 1, t => addDays n (nextDay t)

/-- Day subtraction: `dt - timedelta(days=n)`. -/
def subDays : Nat → DateTime → DateTime
  | 0, t => t
  | n + 1, t => subDays n (prevDay t)

/-! ### Month-start ordinals and their ordering -/

/-- Ordinal day of the first of month `m`, year `y`. -/
def monthStartOrd (y m : Nat) : Nat :=
  daysBeforeYear y + daysBeforeMonth y m

/-- The calendar month after `(y, m)`, advancing the year after December. -/
def nextYM (y m : Nat) : Nat × Nat :=
  if m = 12 then (y + 1, 1) else (y, m + 1)

/-! ### The usage ledger -/

/-- A `UserActivity` row as the quota engine sees it: owner, activity key,
and insertion timestamp (the column's `server_default=func.now()`), encoded
via `toSecs`. -/
structure UsageEvent where
  userId : Nat
  activityType : String
  timestamp : Nat
  deriving DecidableEq, Repr

/-- The persistent store of usage events shared by all evaluations. -/
abbrev Ledger := List UsageEvent

/-- The activity key: `activity_type = f"ai_usage_" + endpoint_name`. -/
def activityTypeFor (endpointName : String) : String :=
  "ai_usage_" ++ endpointName

/-- The count query of `limit_ai_usage` / `check_ai_usage_status`: rows with
matching `user_id`, matching `activity_type` and `timestamp >= start_time`.
The source filter has no upper time bound. -/
def countUsage (ledger : Ledger) (userId : Nat) (activityType : String)
    (startSecs : Nat) : Nat :=
  (ledger.filter (fun e =>
    e.userId == userId && e.activityType == activityType
      && decide (startSecs ≤ e.timestamp))).length

/-- For comparison with the spec's wording only: counting restricted to the
half-open window `[startSecs, endSecs)` ("usage counts in [start, end)"). -/
def countUsageInWindowSpec (ledger : Ledger) (userId : Nat) (activityType : String)
    (startSecs endSecs : Nat) : Nat :=
  (ledger.filter (fun e =>
    e.userId == userId && e.activityType == activityType
      && decide (startSecs ≤ e.timestamp) && decide (e.timestamp < endSecs))).length

/-! ### Tier limits and configuration -/

/-- The keyword arguments of the `limit_ai_usage` decorator factory (and the
identically named parameters of `check_ai_usage_status`). -/
structure LimitConfig where
  resetPeriod : String
  freeLimit : Int
  spotlightLimit : Int
  eliteLimit : Int
  iconLimit : Int
  deriving DecidableEq, Repr

/-- Resolution `tier_limits.get(user_tier, free_limit)` over the literal dict
`{"free": …, "spotlight": …, "elite": …, "icon": …}`. Both source functions
build this dict verbatim; it is shared here. -/
def tierLimitsGet (cfg : LimitConfig) (tier : String) : Int :=
  if tier = "free" then cfg.freeLimit
  else if tier = "spotlight" then cfg.spotlightLimit
  else if tier = "elite" then cfg.eliteLimit
  else if tier = "icon" then cfg.iconLimit
  else cfg.freeLimit

/-- The `name` entry of `get_tier_features(tier)` (`routers/users.py`);
an unknown tier falls back to the free config. Every tier config carries a
`name`, so the decorator's `.get("name", …)` defaults never fire. -/
def tierFeaturesName (tier : String) : String :=
  if tier = "free" then "Free"
  else if tier = "spotlight" then "Spotlight"
  else if tier = "elite" then "Elite"
  else if tier = "icon" then "Icon"
  else "Free"

/-! ### Window computation -/

/-- The `start_time` of `limit_ai_usage` (lines 86–99): daily / weekly / monthly,
any other `reset_period` falling through to the daily start. -/
def startTime (period : String) (now : DateTime) : DateTime :=
  if period = "daily" then midnight now
  else if period = "weekly" then midnight (subDays (weekday now) now)
  else if period = "monthly" then midnight { now with day := 1 }
  else midnight now

/-- The `start_time` of `check_ai_usage_status` (lines 236–253): unlike the
wrapper, its trailing `else` branch is the monthly start. -/
def statusStartTime (period : String) (now : DateTime) : DateTime :=
  if period = "daily" then midnight now
  else if period = "weekly" then midnight (subDays (weekday now) now)
  else midnight { now with day := 1 }

/-- The `reset_time` as computed by both source functions (lines 123–153 and
238–267): next midnight / next Monday midnight / first of next month, the
trailing `else` branch being the monthly reset. -/
def resetTime (period : String) (now : DateTime) : DateTime :=
  if period = "daily" then midnight (addDays 1 now)
  else if period = "weekly" then
    midnight (addDays (if (7 - weekday now) % 7 = 0 then 7 else (7 - weekday now) % 7) now)
  else
    if now.month = 12 then
      { now with
        year := now.year + 1
        month := 1
        day := 1
        hour := 0
        minute := 0
        second := 0 }
    else
      { now with
        month := now.month + 1
        day := 1
        hour := 0
        minute := 0
        second := 0 }

/-- Ordinal day of the counting-window start used by the wrapper. -/
def windowStartOrd (period : String) (t : DateTime) : Nat :=
  toOrdinal (startTime period t)

/-! ### String formatting -/

/-- Two-digit zero padding. -/
def pad2 (n : Nat) : String :=
  if n < 10 then "0" ++ toString n else toString n

/-- Four-digit zero padding. -/
def pad4 (n : Nat) : String :=
  if n < 10 then "000" ++ toString n
  else if n < 100 then "00" ++ toString n
  else if n < 1000 then "0" ++ toString n
  else toString n

/-- Python's `datetime.isoformat()` for a UTC-aware instant with zero
microseconds. -/
def isoformat (t : DateTime) : String :=
  pad4 t.year ++ "-" ++ pad2 t.month ++ "-" ++ pad2 t.day ++ "T"
    ++ pad2 t.hour ++ ":" ++ pad2 t.minute ++ ":" ++ pad2 t.second ++ "+00:00"

/-- Python's `str.title()`: the first letter of each alphabetic run is
uppercased, subsequent letters lowercased. -/
def pyTitleGo : Bool → List Char → List Char
  | _, [] => []
  | prevAlpha, c :: cs =>
    (if prevAlpha then c.toLower else c.toUpper) :: pyTitleGo c.isAlpha cs

/-- Apply `str.title()` to a string. -/
def pyTitle (s : String) : String :=
  ⟨pyTitleGo false s.data⟩

/-! ### The enforcement wrapper -/

/-- A user as the quota engine sees it: primary key and `pricing_tier`. -/
structure User where
  id : Nat
  pricingTier : String
  deriving DecidableEq, Repr

/-- The `detail` dict of the 429 `HTTPException`, field for field. -/
structure DenialDetail where
  message : String
  upgradeRequired : Bool
  currentUsage : Nat
  limit : Int
  resetTimeIso : String
  currentTier : String
  tierName : String
  resetPeriod : String
  endpoint : String
  deriving DecidableEq, Repr

/-- How one wrapped call ends: the operation's value is returned, the
operation's error propagates, or the call is rejected with an HTTP error. -/
inductive CallOutcome where
  | success
  | opError (e : String)
  | denied (statusCode : Nat) (detail : DenialDetail)
  deriving DecidableEq, Repr

/-- Outcome plus resulting ledger, with the number of ledger count queries
the call performed. -/
structure CallResult where
  outcome : CallOutcome
  ledger : Ledger
  ledgerReads : Nat
  deriving DecidableEq, Repr

def CallOutcome.isDenied : CallOutcome → Bool
  | .denied _ _ => true
  | _ => false

/-- One invocation of an endpoint wrapped by `limit_ai_usage` (the inner
`wrapper`), for a request at `now` whose protected operation would finish
with `opResult`. The `db` / `current_user` argument discovery and its 500
error are plumbing, not quota logic, and are elided: the session is the
ledger, `current_user` is `user`. A successful call appends the
`log_user_activity` row, timestamped at insertion time. -/
def limitAiUsageCall (cfg : LimitConfig) (endpointName : String) (user : User)
    (now : DateTime) (opResult : Except String Unit) (ledger : Ledger) :
    CallResult :=
  let userLimit := tierLimitsGet cfg user.pricingTier
  if userLimit = -1 then
    match opResult with
    | .ok _ => { outcome := .success, ledger := ledger, ledgerReads := 0 }
    | .error e => { outcome := .opError e, ledger := ledger, ledgerReads := 0 }
  else
    let activityType := activityTypeFor endpointName
    let usageCount :=
      countUsage ledger user.id activityType (toSecs (startTime cfg.resetPeriod now))
    if userLimit ≤ (usageCount : Int) then
      { outcome := .denied 429
          { message := pyTitle cfg.resetPeriod ++ " AI usage limit reached ("
              ++ toString usageCount ++ "/" ++ toString userLimit
              ++ " used). Upgrade to " ++ tierFeaturesName user.pricingTier
              ++ " tier for more AI calls."
            upgradeRequired := true
            currentUsage := usageCount
            limit := userLimit
            resetTimeIso := isoformat (resetTime cfg.resetPeriod now)
            currentTier := user.pricingTier
            tierName := tierFeaturesName user.pricingTier
            resetPeriod := cfg.resetPeriod
            endpoint := endpointName }
        ledger := ledger
        ledgerReads := 1 }
    else
      match opResult with
      | .error e => { outcome := .opError e, ledger := ledger, ledgerReads := 1 }
      | .ok _ =>
        { outcome := .success
          ledger := ledger ++
            [{ userId := user.id
               activityType := activityType
               timestamp := toSecs now }]
          ledgerReads := 1 }

/-- A sequence of wrapped calls, each with its arrival instant and the fate
of its protected operation, threading the ledger through. -/
def runCallsWith (cfg : LimitConfig) (endpointName : String) (user : User) :
    List (DateTime × Except String Unit) → Ledger → List CallOutcome × Ledger
  | [], ledger => ([], ledger)
  | (t, r) :: rest, ledger =>
    let c := limitAiUsageCall cfg endpointName user t r ledger
    let more := runCallsWith cfg endpointName user rest c.ledger
    (c.outcome :: more.1, more.2)

/-- A sequence of wrapped calls whose protected operations all succeed. -/
def runCalls (cfg : LimitConfig) (endpointName : String) (user : User)
    (ts : List DateTime) (ledger : Ledger) : List CallOutcome × Ledger :=
  runCallsWith cfg endpointName user (ts.map (fun t => (t, Except.ok ()))) ledger

/-! ### The status check -/

/-- The dict returned by `check_ai_usage_status`. The `allowed` key is
present only in the limited branch of the source, hence an `Option`;
likewise `reset_time` is `None` in the unlimited branch. -/
structure UsageStatus where
  unlimited : Bool
  currentUsage : Nat
  limit : Int
  remaining : Int
  resetTimeIso : Option String
  tier : String
  allowed : Option Bool
  deriving DecidableEq, Repr

/-- Status dict plus the number of ledger count queries performed. -/
structure StatusResult where
  status : UsageStatus
  ledgerReads : Nat
  deriving DecidableEq, Repr

/-- The function `check_ai_usage_status(user, endpoint_name, db, ...)` at instant `now`. -/
def checkAiUsageStatus (user : User) (endpointName : String) (ledger : Ledger)
    (cfg : LimitConfig) (now : DateTime) : StatusResult :=
  let userLimit := tierLimitsGet cfg user.pricingTier
  if userLimit = -1 then
    { status :=
        { unlimited := true
          currentUsage := 0
          limit := -1
          remaining := -1
          resetTimeIso := none
          tier := user.pricingTier
          allowed := none }
      ledgerReads := 0 }
  else
    let usageCount :=
      countUsage ledger user.id (activityTypeFor endpointName)
        (toSecs (statusStartTime cfg.resetPeriod now))
    { status :=
        { unlimited := false
          currentUsage := usageCount
          limit := userLimit
          remaining := max 0 (userLimit - (usageCount : Int))
          resetTimeIso := some (isoformat (resetTime cfg.resetPeriod now))
          tier := user.pricingTier
          allowed := some (decide ((usageCount : Int) < userLimit)) }
      ledgerReads := 1 }

/-- HTTP status code of a rejected call, when the outcome is a rejection. -/
def CallOutcome.statusCode : CallOutcome → Option Nat
  | .denied c _ => some c
  | _ => none

/-! ### Basic calendar lemmas -/

theorem one_le_daysInMonth {y m : Nat} (h1 : 1 ≤ m) (h2 : m ≤ 12) :
    1 ≤ daysInMonth y m := by
  interval_cases m <;> simp [daysInMonth] <;> split <;> omega

theorem daysInMonth_le_31 {y m : Nat} : daysInMonth y m ≤ 31 := by
  unfold daysInMonth
  split <;> first | omega | (split <;> omega)

theorem daysBeforeMonth_succ {y m : Nat} (h1 : 1 ≤ m) (h2 : m ≤ 11) :
    daysBeforeMonth y (m + 1) = daysBeforeMonth y m + daysInMonth y m := by
  interval_cases m <;>
    simp [daysBeforeMonth, daysInMonth] <;> split <;> omega

theorem daysBeforeMonth_twelve {y : Nat} :
    daysBeforeMonth y 12 = 334 + (if isLeap y then 1 else 0) := by
  simp [daysBeforeMonth]

theorem daysBeforeMonth_one {y : Nat} : daysBeforeMonth y 1 = 0 := by
  simp [daysBeforeMonth]

theorem daysBeforeMonth_add_le {y m : Nat} (h1 : 1 ≤ m) (h2 : m ≤ 12) :
    daysBeforeMonth y m + daysInMonth y m ≤ 365 + (if isLeap y then 1 else 0) := by
  interval_cases m <;>
    simp [daysBeforeMonth, daysInMonth] <;> split <;> omega

theorem isLeap_iff {y : Nat} :
    isLeap y = true ↔ (y % 4 = 0 ∧ y % 100 ≠ 0 ∨ y % 400 = 0) := by
  simp [isLeap, Bool.or_eq_true, Bool.and_eq_true, beq_iff_eq, bne_iff_ne]

set_option maxHeartbeats 1000000 in
theorem daysBeforeYear_succ {y : Nat} (hy : 1 ≤ y) :
    daysBeforeYear (y + 1) = daysBeforeYear y + (365 + (if isLeap y then 1 else 0)) := by
  cases hl : isLeap y
  · have h : ¬ (y % 4 = 0 ∧ y % 100 ≠ 0 ∨ y % 400 = 0) := by
      rw [← isLeap_iff, hl]; simp
    simp only [hl, Bool.false_eq_true, if_false]
    unfold daysBeforeYear
    omega
  · have h : y % 4 = 0 ∧ y % 100 ≠ 0 ∨ y % 400 = 0 := isLeap_iff.mp hl
    simp only [hl, if_true]
    unfold daysBeforeYear
    omega

theorem daysBeforeYear_mono {y y' : Nat} (h : y ≤ y') :
    daysBeforeYear y ≤ daysBeforeYear y' := by
  unfold daysBeforeYear
  have h4 : (y - 1) / 4 ≤ (y' - 1) / 4 := Nat.div_le_div_right (by omega)
  have h400 : (y - 1) / 400 ≤ (y' - 1) / 400 := Nat.div_le_div_right (by omega)
  have h100 : (y' - 1) / 100 ≤ (y - 1) / 100 + ((y' - 1) - (y - 1)) := by omega
  omega

theorem monthStartOrd_nextYM {y m : Nat} (hy : 1 ≤ y) (h1 : 1 ≤ m) (h2 : m ≤ 12) :
    monthStartOrd (nextYM y m).1 (nextYM y m).2
      = monthStartOrd y m + daysInMonth y m := by
  by_cases h12 : m = 12
  · subst h12
    have e1 : (nextYM y 12).1 = y + 1 := rfl
    have e2 : (nextYM y 12).2 = 1 := rfl
    rw [e1, e2]
    unfold monthStartOrd
    have hs := daysBeforeYear_succ (y := y) hy
    have ht := daysBeforeMonth_twelve (y := y)
    have ho := daysBeforeMonth_one (y := y + 1)
    have hm : daysInMonth y 12 = 31 := rfl
    omega
  · have e1 : (nextYM y m).1 = y := by simp [nextYM, h12]
    have e2 : (nextYM y m).2 = m + 1 := by simp [nextYM, h12]
    rw [e1, e2]
    unfold monthStartOrd
    have := daysBeforeMonth_succ (y := y) h1 (by omega)
    omega

theorem daysBeforeMonth_mono {y m m' : Nat} (h1 : 1 ≤ m) (h2 : m ≤ m') (h3 : m' ≤ 12) :
    daysBeforeMonth y m ≤ daysBeforeMonth y m' := by
  induction m' with
  | zero => omega
  | succ k ih =>
    rcases Nat.lt_or_ge m (k + 1) with hlt | hge
    · have hstep := daysBeforeMonth_succ (y := y) (m := k) (by omega) (by omega)
      have ihk := ih (by omega) (by omega)
      omega
    · have hm : m = k + 1 := by omega
      rw [hm]

theorem monthStartOrd_next_le {y m y' m' : Nat}
    (hy : 1 ≤ y) (hm1 : 1 ≤ m) (hm2 : m ≤ 12) (hm1' : 1 ≤ m') (hm2' : m' ≤ 12)
    (hlt : y < y' ∨ (y = y' ∧ m < m')) :
    monthStartOrd (nextYM y m).1 (nextYM y m).2 ≤ monthStartOrd y' m' := by
  rcases hlt with hy' | ⟨rfl, hm'⟩
  · have hbound : monthStartOrd (nextYM y m).1 (nextYM y m).2 ≤ daysBeforeYear (y + 1) := by
      by_cases h12 : m = 12
      · subst h12
        have e1 : (nextYM y 12).1 = y + 1 := rfl
        have e2 : (nextYM y 12).2 = 1 := rfl
        rw [e1, e2]
        unfold monthStartOrd
        have := daysBeforeMonth_one (y := y + 1)
        omega
      · have e1 : (nextYM y m).1 = y := by simp [nextYM, h12]
        have e2 : (nextYM y m).2 = m + 1 := by simp [nextYM, h12]
        rw [e1, e2]
        unfold monthStartOrd
        have hsucc := daysBeforeMonth_succ (y := y) hm1 (by omega)
        have hle := daysBeforeMonth_add_le (y := y) hm1 hm2
        have hys := daysBeforeYear_succ (y := y) hy
        omega
    have h2 : daysBeforeYear (y + 1) ≤ daysBeforeYear y' := daysBeforeYear_mono (by omega)
    unfold monthStartOrd
    unfold monthStartOrd at hbound
    omega
  · have h12 : ¬ m = 12 := by omega
    have e1 : (nextYM y m).1 = y := by simp [nextYM, h12]
    have e2 : (nextYM y m).2 = m + 1 := by simp [nextYM, h12]
    rw [e1, e2]
    unfold monthStartOrd
    have := @daysBeforeMonth_mono y (m + 1) m' (by omega) (by omega) hm2'
    omega

theorem monthStartOrd_lt_next {y m : Nat} (hy : 1 ≤ y) (h1 : 1 ≤ m) (h2 : m ≤ 12) :
    monthStartOrd y m < monthStartOrd (nextYM y m).1 (nextYM y m).2 := by
  have h := monthStartOrd_nextYM (y := y) hy h1 h2
  have := one_le_daysInMonth (y := y) h1 h2
  omega

/-- A day ordinal lies in exactly one month: the bracketing
`monthStartOrd _ _ ≤ N < monthStartOrd (nextYM _ _) _` pins `(y, m)`. -/
theorem month_of_ord_unique {y m y' m' N : Nat}
    (hy : 1 ≤ y) (hm1 : 1 ≤ m) (hm2 : m ≤ 12)
    (hy' : 1 ≤ y') (hm1' : 1 ≤ m') (hm2' : m' ≤ 12)
    (ha1 : monthStartOrd y m ≤ N) (ha2 : N < monthStartOrd (nextYM y m).1 (nextYM y m).2)
    (hb1 : monthStartOrd y' m' ≤ N) (hb2 : N < monthStartOrd (nextYM y' m').1 (nextYM y' m').2) :
    y = y' ∧ m = m' := by
  rcases Nat.lt_trichotomy y y' with hlt | heq | hgt
  · have := monthStartOrd_next_le hy hm1 hm2 hm1' hm2' (Or.inl hlt)
    omega
  · subst heq
    rcases Nat.lt_trichotomy m m' with hmlt | hmeq | hmgt
    · have := monthStartOrd_next_le hy hm1 hm2 hm1' hm2' (Or.inr ⟨rfl, hmlt⟩)
      omega
    · exact ⟨rfl, hmeq⟩
    · have := monthStartOrd_next_le hy' hm1' hm2' hm1 hm2 (Or.inr ⟨rfl, hmgt⟩)
      omega
  · have := monthStartOrd_next_le hy' hm1' hm2' hm1 hm2 (Or.inl hgt)
    omega

theorem monthStartOrd_le_toOrdinal {t : DateTime} :
    monthStartOrd t.year t.month ≤ toOrdinal t := by
  unfold monthStartOrd toOrdinal
  omega

theorem toOrdinal_lt_next {t : DateTime} (hv : Valid t) :
    toOrdinal t < monthStartOrd (nextYM t.year t.month).1 (nextYM t.year t.month).2 := by
  obtain ⟨hy, hm1, hm2, hd1, hd2, _⟩ := hv
  have h := monthStartOrd_nextYM (y := t.year) hy hm1 hm2
  unfold toOrdinal
  unfold monthStartOrd at h ⊢
  omega

/-- `toOrdinal` determines the civil date of a valid instant. -/
theorem toOrdinal_inj {a b : DateTime} (ha : Valid a) (hb : Valid b)
    (h : toOrdinal a = toOrdinal b) :
    a.year = b.year ∧ a.month = b.month ∧ a.day = b.day := by
  obtain ⟨hya, hm1a, hm2a, hd1a, hd2a, _⟩ := ha
  obtain ⟨hyb, hm1b, hm2b, hd1b, hd2b, _⟩ := hb
  have ha1 : monthStartOrd a.year a.month ≤ toOrdinal a := monthStartOrd_le_toOrdinal
  have ha2 := toOrdinal_lt_next (t := a) ⟨hya, hm1a, hm2a, hd1a, hd2a, by omega, by omega, by omega⟩
  have hb1 : monthStartOrd b.year b.month ≤ toOrdinal b := monthStartOrd_le_toOrdinal
  have hb2 := toOrdinal_lt_next (t := b) ⟨hyb, hm1b, hm2b, hd1b, hd2b, by omega, by omega, by omega⟩
  rw [h] at ha1 ha2
  have hym := month_of_ord_unique hya hm1a hm2a hyb hm1b hm2b ha1 ha2 hb1 hb2
  refine ⟨hym.1, hym.2, ?_⟩
  unfold toOrdinal at h
  rw [hym.1, hym.2] at h
  omega

/-! ### Day stepping: validity and ordinals -/

theorem valid_nextDay {t : DateTime} (hv : Valid t) : Valid (nextDay t) := by
  obtain ⟨hy, hm1, hm2, hd1, hd2, hh, hmin, hs⟩ := hv
  unfold nextDay
  split
  · next h =>
      exact ⟨hy, hm1, hm2, by show 1 ≤ t.day + 1; omega,
        by show t.day + 1 ≤ daysInMonth t.year t.month; omega, hh, hmin, hs⟩
  · split
    · next h1 h2 =>
        exact ⟨hy, by show 1 ≤ t.month + 1; omega, by show t.month + 1 ≤ 12; omega,
          le_refl 1,
          by show 1 ≤ daysInMonth t.year (t.month + 1)
             exact one_le_daysInMonth (by omega) (by omega),
          hh, hmin, hs⟩
    · next h1 h2 =>
        exact ⟨by show 1 ≤ t.year + 1; omega, le_refl 1, by show (1 : Nat) ≤ 12; omega,
          le_refl 1,
          by show (1 : Nat) ≤ daysInMonth (t.year + 1) 1
             have e : daysInMonth (t.year + 1) 1 = 31 := rfl
             omega,
          hh, hmin, hs⟩

theorem toOrdinal_nextDay {t : DateTime} (hv : Valid t) :
    toOrdinal (nextDay t) = toOrdinal t + 1 := by
  obtain ⟨hy, hm1, hm2, hd1, hd2, _⟩ := hv
  unfold nextDay
  split
  · next h =>
      show daysBeforeYear t.year + daysBeforeMonth t.year t.month + (t.day + 1 - 1)
        = daysBeforeYear t.year + daysBeforeMonth t.year t.month + (t.day - 1) + 1
      omega
  · split
    · next h1 h2 =>
        show daysBeforeYear t.year + daysBeforeMonth t.year (t.month + 1) + (1 - 1)
          = daysBeforeYear t.year + daysBeforeMonth t.year t.month + (t.day - 1) + 1
        have hsucc := daysBeforeMonth_succ (y := t.year) hm1 (by omega)
        omega
    · next h1 h2 =>
        show daysBeforeYear (t.year + 1) + daysBeforeMonth (t.year + 1) 1 + (1 - 1)
          = daysBeforeYear t.year + daysBeforeMonth t.year t.month + (t.day - 1) + 1
        have hm12 : t.month = 12 := by omega
        rw [hm12] at hd2 h1 ⊢
        have hd31 : t.day = 31 := by
          have e : daysInMonth t.year 12 = 31 := rfl
          omega
        have hys := daysBeforeYear_succ (y := t.year) hy
        have ht := daysBeforeMonth_twelve (y := t.year)
        have ho1 := daysBeforeMonth_one (y := t.year + 1)
        omega

theorem hour_nextDay {t : DateTime} : (nextDay t).hour = t.hour := by
  unfold nextDay; split
  · rfl
  · split
    · rfl
    · rfl

theorem minute_nextDay {t : DateTime} : (nextDay t).minute = t.minute := by
  unfold nextDay; split
  · rfl
  · split
    · rfl
    · rfl

theorem second_nextDay {t : DateTime} : (nextDay t).second = t.second := by
  unfold nextDay; split
  · rfl
  · split
    · rfl
    · rfl

theorem secsOfDay_nextDay {t : DateTime} : secsOfDay (nextDay t) = secsOfDay t := by
  unfold secsOfDay
  rw [hour_nextDay, minute_nextDay, second_nextDay]

theorem valid_addDays {n : Nat} {t : DateTime} (hv : Valid t) : Valid (addDays n t) := by
  induction n generalizing t with
  | zero => exact hv
  | succ k ih => exact ih (valid_nextDay hv)

theorem toOrdinal_addDays {n : Nat} {t : DateTime} (hv : Valid t) :
    toOrdinal (addDays n t) = toOrdinal t + n := by
  induction n generalizing t with
  | zero => rfl
  | succ k ih =>
    have hstep := ih (t := nextDay t) (valid_nextDay hv)
    show toOrdinal (addDays k (nextDay t)) = toOrdinal t + (k + 1)
    rw [hstep, toOrdinal_nextDay hv]
    omega

theorem secsOfDay_addDays {n : Nat} {t : DateTime} :
    secsOfDay (addDays n t) = secsOfDay t := by
  induction n generalizing t with
  | zero => rfl
  | succ k ih =>
    show secsOfDay (addDays k (nextDay t)) = secsOfDay t
    rw [ih, secsOfDay_nextDay]

theorem prevDay_spec {t : DateTime} (hv : Valid t) (h1 : 1 ≤ toOrdinal t) :
    Valid (prevDay t) ∧ toOrdinal (prevDay t) + 1 = toOrdinal t := by
  obtain ⟨hy, hm1, hm2, hd1, hd2, hh, hmin, hs⟩ := hv
  unfold prevDay
  split
  · next h =>
      refine ⟨⟨hy, hm1, hm2, by show 1 ≤ t.day - 1; omega,
        by show t.day - 1 ≤ daysInMonth t.year t.month; omega, hh, hmin, hs⟩, ?_⟩
      show daysBeforeYear t.year + daysBeforeMonth t.year t.month + (t.day - 1 - 1) + 1
        = daysBeforeYear t.year + daysBeforeMonth t.year t.month + (t.day - 1)
      omega
  · split
    · next hda hmb =>
        have hd : t.day = 1 := by omega
        have hdm1 := one_le_daysInMonth (y := t.year) (m := t.month - 1) (by omega) (by omega)
        refine ⟨⟨hy, by show 1 ≤ t.month - 1; omega, by show t.month - 1 ≤ 12; omega,
          by show 1 ≤ daysInMonth t.year (t.month - 1); omega,
          le_refl _, hh, hmin, hs⟩, ?_⟩
        show daysBeforeYear t.year + daysBeforeMonth t.year (t.month - 1)
            + (daysInMonth t.year (t.month - 1) - 1) + 1
          = daysBeforeYear t.year + daysBeforeMonth t.year t.month + (t.day - 1)
        have hsucc := daysBeforeMonth_succ (y := t.year) (m := t.month - 1)
          (by omega) (by omega)
        have heq : t.month - 1 + 1 = t.month := by omega
        rw [heq] at hsucc
        omega
    · next hda hmb =>
        have hd : t.day = 1 := by omega
        have hm : t.month = 1 := by omega
        have hyge : 2 ≤ t.year := by
          by_contra hc
          have hy1 : t.year = 1 := by omega
          unfold toOrdinal at h1
          rw [hy1, hm] at h1
          have e1 : daysBeforeYear 1 = 0 := rfl
          have e2 : daysBeforeMonth 1 1 = 0 := rfl
          omega
        have e31 : daysInMonth (t.year - 1) 12 = 31 := rfl
        refine ⟨⟨by show 1 ≤ t.year - 1; omega, by show (1 : Nat) ≤ 12; omega,
          le_refl _, by show (1 : Nat) ≤ 31; omega,
          by show (31 : Nat) ≤ daysInMonth (t.year - 1) 12; omega, hh, hmin, hs⟩, ?_⟩
        show daysBeforeYear (t.year - 1) + daysBeforeMonth (t.year - 1) 12 + (31 - 1) + 1
          = daysBeforeYear t.year + daysBeforeMonth t.year t.month + (t.day - 1)
        have hys := daysBeforeYear_succ (y := t.year - 1) (by omega)
        have heq : t.year - 1 + 1 = t.year := by omega
        rw [heq] at hys
        have ht := daysBeforeMonth_twelve (y := t.year - 1)
        rw [hm]
        have e2 := daysBeforeMonth_one (y := t.year)
        omega

theorem hour_prevDay {t : DateTime} : (prevDay t).hour = t.hour := by
  unfold prevDay; split
  · rfl
  · split
    · rfl
    · rfl

theorem minute_prevDay {t : DateTime} : (prevDay t).minute = t.minute := by
  unfold prevDay; split
  · rfl
  · split
    · rfl
    · rfl

theorem second_prevDay {t : DateTime} : (prevDay t).second = t.second := by
  unfold prevDay; split
  · rfl
  · split
    · rfl
    · rfl

theorem secsOfDay_prevDay {t : DateTime} : secsOfDay (prevDay t) = secsOfDay t := by
  unfold secsOfDay
  rw [hour_prevDay, minute_prevDay, second_prevDay]

theorem subDays_spec {n : Nat} {t : DateTime} (hv : Valid t) (hn : n ≤ toOrdinal t) :
    Valid (subDays n t) ∧ toOrdinal (subDays n t) + n = toOrdinal t := by
  induction n generalizing t with
  | zero => exact ⟨hv, rfl⟩
  | succ k ih =>
    have hp := prevDay_spec hv (by omega)
    have hrec := ih (t := prevDay t) hp.1 (by omega)
    show Valid (subDays k (prevDay t)) ∧ toOrdinal (subDays k (prevDay t)) + (k + 1) = toOrdinal t
    exact ⟨hrec.1, by omega⟩

theorem secsOfDay_subDays {n : Nat} {t : DateTime} :
    secsOfDay (subDays n t) = secsOfDay t := by
  induction n generalizing t with
  | zero => rfl
  | succ k ih =>
    show secsOfDay (subDays k (prevDay t)) = secsOfDay t
    rw [ih, secsOfDay_prevDay]

/-! ### Midnight lemmas -/

theorem valid_midnight {t : DateTime} (hv : Valid t) : Valid (midnight t) := by
  obtain ⟨hy, hm1, hm2, hd1, hd2, _⟩ := hv
  exact ⟨hy, hm1, hm2, hd1, hd2, by show (0 : Nat) < 24; omega,
    by show (0 : Nat) < 60; omega, by show (0 : Nat) < 60; omega⟩

theorem toOrdinal_midnight {t : DateTime} : toOrdinal (midnight t) = toOrdinal t := by
  simp [toOrdinal, midnight]

theorem secsOfDay_midnight {t : DateTime} : secsOfDay (midnight t) = 0 := by
  simp [secsOfDay, midnight]

theorem toSecs_midnight {t : DateTime} : toSecs (midnight t) = toOrdinal t * 86400 := by
  unfold toSecs
  rw [toOrdinal_midnight, secsOfDay_midnight]
  omega

theorem secsOfDay_lt {t : DateTime} (hv : Valid t) : secsOfDay t < 86400 := by
  obtain ⟨_, _, _, _, _, hh, hmin, hs⟩ := hv
  unfold secsOfDay
  omega

/-! ### Window characterization lemmas -/

theorem weekday_lt {t : DateTime} : weekday t < 7 := by
  unfold weekday
  omega

theorem weekday_le_toOrdinal {t : DateTime} : weekday t ≤ toOrdinal t := by
  unfold weekday
  exact Nat.mod_le _ _

theorem windowStartOrd_daily {now : DateTime} :
    windowStartOrd "daily" now = toOrdinal now := by
  unfold windowStartOrd startTime
  rw [if_pos rfl, toOrdinal_midnight]

theorem windowStartOrd_weekly {now : DateTime} (hv : Valid now) :
    windowStartOrd "weekly" now = toOrdinal now - weekday now := by
  unfold windowStartOrd startTime
  rw [if_neg (by decide), if_pos rfl, toOrdinal_midnight]
  have := (subDays_spec (n := weekday now) hv weekday_le_toOrdinal).2
  omega

theorem windowStartOrd_monthly {now : DateTime} :
    windowStartOrd "monthly" now = monthStartOrd now.year now.month := by
  unfold windowStartOrd startTime
  rw [if_neg (by decide), if_neg (by decide), if_pos rfl, toOrdinal_midnight]
  show daysBeforeYear now.year + daysBeforeMonth now.year now.month + (1 - 1)
    = monthStartOrd now.year now.month
  unfold monthStartOrd
  omega

theorem windowStartOrd_other {p : String} {now : DateTime}
    (h1 : p ≠ "daily") (h2 : p ≠ "weekly") (h3 : p ≠ "monthly") :
    windowStartOrd p now = toOrdinal now := by
  unfold windowStartOrd startTime
  rw [if_neg h1, if_neg h2, if_neg h3, toOrdinal_midnight]

theorem secsOfDay_startTime {p : String} {now : DateTime} :
    secsOfDay (startTime p now) = 0 := by
  unfold startTime
  split
  · exact secsOfDay_midnight
  · split
    · exact secsOfDay_midnight
    · split
      · exact secsOfDay_midnight
      · exact secsOfDay_midnight

theorem toSecs_startTime {p : String} {now : DateTime} :
    toSecs (startTime p now) = windowStartOrd p now * 86400 := by
  unfold toSecs
  rw [secsOfDay_startTime]
  unfold windowStartOrd
  omega

theorem windowStartOrd_le {p : String} {now : DateTime} (hv : Valid now) :
    windowStartOrd p now ≤ toOrdinal now := by
  by_cases h1 : p = "daily"
  · rw [h1, windowStartOrd_daily]
  · by_cases h2 : p = "weekly"
    · rw [h2, windowStartOrd_weekly hv]
      omega
    · by_cases h3 : p = "monthly"
      · rw [h3, windowStartOrd_monthly]
        exact monthStartOrd_le_toOrdinal
      · rw [windowStartOrd_other h1 h2 h3]

theorem resetOrd_daily {now : DateTime} (hv : Valid now) :
    toOrdinal (resetTime "daily" now) = toOrdinal now + 1 := by
  unfold resetTime
  rw [if_pos rfl, toOrdinal_midnight, toOrdinal_addDays hv]

theorem weekly_days_until {w : Nat} (hw : w < 7) :
    (if (7 - w) % 7 = 0 then 7 else (7 - w) % 7) = 7 - w := by
  split <;> omega

theorem resetOrd_weekly {now : DateTime} (hv : Valid now) :
    toOrdinal (resetTime "weekly" now) = toOrdinal now + (7 - weekday now) := by
  unfold resetTime
  rw [if_neg (by decide), if_pos rfl, toOrdinal_midnight,
    weekly_days_until (weekday_lt (t := now)), toOrdinal_addDays hv]

theorem resetOrd_monthly {p : String} {now : DateTime}
    (h1 : p ≠ "daily") (h2 : p ≠ "weekly") :
    toOrdinal (resetTime p now)
      = monthStartOrd (nextYM now.year now.month).1 (nextYM now.year now.month).2 := by
  unfold resetTime nextYM
  rw [if_neg h1, if_neg h2]
  by_cases h12 : now.month = 12
  · rw [if_pos h12, if_pos h12]
    show daysBeforeYear (now.year + 1) + daysBeforeMonth (now.year + 1) 1 + (1 - 1)
      = monthStartOrd (now.year + 1) 1
    unfold monthStartOrd
    omega
  · rw [if_neg h12, if_neg h12]
    show daysBeforeYear now.year + daysBeforeMonth now.year (now.month + 1) + (1 - 1)
      = monthStartOrd now.year (now.month + 1)
    unfold monthStartOrd
    omega

theorem hour_resetTime {p : String} {now : DateTime} : (resetTime p now).hour = 0 := by
  unfold resetTime
  split
  · exact rfl
  · split
    · exact rfl
    · split
      · exact rfl
      · exact rfl

theorem minute_resetTime {p : String} {now : DateTime} : (resetTime p now).minute = 0 := by
  unfold resetTime
  split
  · exact rfl
  · split
    · exact rfl
    · split
      · exact rfl
      · exact rfl

theorem second_resetTime {p : String} {now : DateTime} : (resetTime p now).second = 0 := by
  unfold resetTime
  split
  · exact rfl
  · split
    · exact rfl
    · split
      · exact rfl
      · exact rfl

theorem secsOfDay_resetTime {p : String} {now : DateTime} :
    secsOfDay (resetTime p now) = 0 := by
  unfold secsOfDay
  rw [hour_resetTime, minute_resetTime, second_resetTime]

theorem toSecs_resetTime {p : String} {now : DateTime} :
    toSecs (resetTime p now) = toOrdinal (resetTime p now) * 86400 := by
  unfold toSecs
  rw [secsOfDay_resetTime]
  omega

theorem nextYM_year_pos {y m : Nat} (hy : 1 ≤ y) : 1 ≤ (nextYM y m).1 := by
  unfold nextYM
  split
  · omega
  · omega

theorem nextYM_month_bounds {y m : Nat} (h1 : 1 ≤ m) (h2 : m ≤ 12) :
    1 ≤ (nextYM y m).2 ∧ (nextYM y m).2 ≤ 12 := by
  unfold nextYM
  split
  · next h => exact ⟨le_refl 1, by omega⟩
  · next h => exact ⟨by omega, by omega⟩

theorem valid_resetTime {p : String} {now : DateTime} (hv : Valid now) :
    Valid (resetTime p now) := by
  unfold resetTime
  split
  · exact valid_midnight (valid_addDays hv)
  · split
    · exact valid_midnight (valid_addDays hv)
    · obtain ⟨hy, hm1, hm2, hd1, hd2, _⟩ := hv
      split
      · next h12 =>
          refine ⟨by show 1 ≤ now.year + 1; omega, le_refl 1, by show (1 : Nat) ≤ 12; omega,
            le_refl 1, ?_, by show (0 : Nat) < 24; omega,
            by show (0 : Nat) < 60; omega, by show (0 : Nat) < 60; omega⟩
          show (1 : Nat) ≤ daysInMonth (now.year + 1) 1
          have e : daysInMonth (now.year + 1) 1 = 31 := rfl
          omega
      · next h12 =>
          refine ⟨hy, by show 1 ≤ now.month + 1; omega, by show now.month + 1 ≤ 12; omega,
            le_refl 1, ?_, by show (0 : Nat) < 24; omega,
            by show (0 : Nat) < 60; omega, by show (0 : Nat) < 60; omega⟩
          show (1 : Nat) ≤ daysInMonth now.year (now.month + 1)
          exact one_le_daysInMonth (by omega) (by omega)

theorem toOrdinal_lt_resetOrd {p : String} {now : DateTime} (hv : Valid now) :
    toOrdinal now < toOrdinal (resetTime p now) := by
  have hy := hv.1
  have hm1 := hv.2.1
  have hm2 := hv.2.2.1
  by_cases h1 : p = "daily"
  · rw [h1, resetOrd_daily hv]
    omega
  · by_cases h2 : p = "weekly"
    · rw [h2, resetOrd_weekly hv]
      have := weekday_lt (t := now)
      omega
    · rw [resetOrd_monthly h1 h2]
      exact toOrdinal_lt_next hv

/-! ### Same-window and cross-window facts -/

/-- Two valid instants with the same ordinal and the same time of day are
equal as records. -/
theorem dateTime_eq {a b : DateTime} (hv1 : Valid a) (hv2 : Valid b)
    (ho : toOrdinal a = toOrdinal b) (hh : a.hour = b.hour)
    (hmi : a.minute = b.minute) (hse : a.second = b.second) : a = b := by
  obtain ⟨hy, hm, hd⟩ := toOrdinal_inj hv1 hv2 ho
  cases a
  cases b
  simp_all

theorem monthStartOrd_mono {y m y' m' : Nat} (hy : 1 ≤ y) (hm1 : 1 ≤ m) (hm2 : m ≤ 12)
    (hm1' : 1 ≤ m') (hm2' : m' ≤ 12)
    (hle : y < y' ∨ (y = y' ∧ m ≤ m')) :
    monthStartOrd y m ≤ monthStartOrd y' m' := by
  rcases hle with h | ⟨rfl, h⟩
  · have ha := monthStartOrd_lt_next hy hm1 hm2
    have hb := monthStartOrd_next_le hy hm1 hm2 hm1' hm2' (Or.inl h)
    omega
  · unfold monthStartOrd
    have := daysBeforeMonth_mono (y := y) hm1 h hm2'
    omega

theorem monthStartOrd_inj {y m y' m' : Nat}
    (hy : 1 ≤ y) (hm1 : 1 ≤ m) (hm2 : m ≤ 12)
    (hy' : 1 ≤ y') (hm1' : 1 ≤ m') (hm2' : m' ≤ 12)
    (h : monthStartOrd y m = monthStartOrd y' m') : y = y' ∧ m = m' := by
  refine month_of_ord_unique hy hm1 hm2 hy' hm1' hm2' (le_refl _)
    (monthStartOrd_lt_next hy hm1 hm2) (by omega) ?_
  have := monthStartOrd_lt_next hy' hm1' hm2'
  omega

/-- If the first of month `(yq, mq)` is on or before a valid instant, it is
on or before the first of that instant's own month. -/
theorem monthStart_le_monthStart_of_le_ord {yq mq : Nat} {t : DateTime}
    (hyq : 1 ≤ yq) (hmq1 : 1 ≤ mq) (hmq2 : mq ≤ 12) (hv : Valid t)
    (h : monthStartOrd yq mq ≤ toOrdinal t) :
    monthStartOrd yq mq ≤ monthStartOrd t.year t.month := by
  have hy2 := hv.1
  have hm21 := hv.2.1
  have hm22 := hv.2.2.1
  have hub := toOrdinal_lt_next hv
  have hlb := monthStartOrd_le_toOrdinal (t := t)
  rcases Nat.lt_trichotomy yq t.year with hlt | heq | hgt
  · exact monthStartOrd_mono hyq hmq1 hmq2 hm21 hm22 (Or.inl hlt)
  · rcases le_or_lt mq t.month with hml | hmg
    · exact monthStartOrd_mono hyq hmq1 hmq2 hm21 hm22 (Or.inr ⟨heq, hml⟩)
    · have := monthStartOrd_next_le hy2 hm21 hm22 hmq1 hmq2 (Or.inr ⟨heq.symm, hmg⟩)
      omega
  · have := monthStartOrd_next_le hy2 hm21 hm22 hmq1 hmq2 (Or.inl hgt)
    omega

/-- Once an instant is at or past the reported reset instant, the counting
window it falls into starts at or after that reset instant. -/
theorem reset_le_windowStart {p : String} {now1 now2 : DateTime}
    (hp : p = "daily" ∨ p = "weekly" ∨ p = "monthly")
    (hv1 : Valid now1) (hv2 : Valid now2)
    (h : toSecs (resetTime p now1) ≤ toSecs now2) :
    toOrdinal (resetTime p now1) ≤ windowStartOrd p now2 := by
  have hord : toOrdinal (resetTime p now1) ≤ toOrdinal now2 := by
    have h1 := @toSecs_resetTime p now1
    have h2 := secsOfDay_lt hv2
    unfold toSecs at h
    omega
  rcases hp with hp | hp | hp
  · subst hp
    rw [windowStartOrd_daily]
    exact hord
  · subst hp
    rw [windowStartOrd_weekly hv2]
    rw [resetOrd_weekly hv1] at hord ⊢
    have hw1 : weekday now1 = toOrdinal now1 % 7 := rfl
    have hw2 : weekday now2 = toOrdinal now2 % 7 := rfl
    omega
  · subst hp
    rw [windowStartOrd_monthly]
    rw [resetOrd_monthly (by decide) (by decide)] at hord ⊢
    have hy1 := hv1.1
    have hm11 := hv1.2.1
    have hm12 := hv1.2.2.1
    have hqy := nextYM_year_pos (m := now1.month) hy1
    have hqm := nextYM_month_bounds (y := now1.year) hm11 hm12
    exact monthStart_le_monthStart_of_le_ord hqy hqm.1 hqm.2 hv2 hord

/-- The reported reset instant is a function of the counting window alone:
two instants with the same window start get identical reset instants. -/
theorem resetTime_eq_of_same_window {p : String} {t1 t2 : DateTime}
    (hp : p = "daily" ∨ p = "weekly" ∨ p = "monthly")
    (hv1 : Valid t1) (hv2 : Valid t2)
    (h : windowStartOrd p t1 = windowStartOrd p t2) :
    resetTime p t1 = resetTime p t2 := by
  refine dateTime_eq (valid_resetTime hv1) (valid_resetTime hv2) ?_ ?_ ?_ ?_
  · rcases hp with hp | hp | hp
    · subst hp
      rw [windowStartOrd_daily, windowStartOrd_daily] at h
      rw [resetOrd_daily hv1, resetOrd_daily hv2, h]
    · subst hp
      rw [windowStartOrd_weekly hv1, windowStartOrd_weekly hv2] at h
      rw [resetOrd_weekly hv1, resetOrd_weekly hv2]
      have hw1 : weekday t1 = toOrdinal t1 % 7 := rfl
      have hw2 : weekday t2 = toOrdinal t2 % 7 := rfl
      omega
    · subst hp
      rw [windowStartOrd_monthly, windowStartOrd_monthly] at h
      obtain ⟨hy, hm⟩ := monthStartOrd_inj hv1.1 hv1.2.1 hv1.2.2.1
        hv2.1 hv2.2.1 hv2.2.2.1 h
      rw [resetOrd_monthly (by decide) (by decide),
        resetOrd_monthly (by decide) (by decide), hy, hm]
  · rw [hour_resetTime, hour_resetTime]
  · rw [minute_resetTime, minute_resetTime]
  · rw [second_resetTime, second_resetTime]

/-! ### Ledger counting lemmas -/

theorem activityTypeFor_inj {a b : String} (h : activityTypeFor a = activityTypeFor b) :
    a = b := by
  unfold activityTypeFor at h
  have hd : ("ai_usage_" ++ a).data = ("ai_usage_" ++ b).data := by rw [h]
  simp [String.data_append] at hd
  cases a
  cases b
  simp_all

theorem eventMatch_iff {e : UsageEvent} {uid : Nat} {atype : String} {s : Nat} :
    (e.userId == uid && e.activityType == atype && decide (s ≤ e.timestamp)) = true
      ↔ (e.userId = uid ∧ e.activityType = atype ∧ s ≤ e.timestamp) := by
  simp [Bool.and_eq_true, beq_iff_eq, decide_eq_true_iff, and_assoc]

theorem countUsage_append {ledger : Ledger} {e : UsageEvent} {uid : Nat}
    {atype : String} {s : Nat} :
    countUsage (ledger ++ [e]) uid atype s
      = countUsage ledger uid atype s
        + (if e.userId = uid ∧ e.activityType = atype ∧ s ≤ e.timestamp then 1 else 0) := by
  unfold countUsage
  rw [List.filter_append, List.length_append]
  congr 1
  by_cases h : e.userId = uid ∧ e.activityType = atype ∧ s ≤ e.timestamp
  · rw [if_pos h]
    have hb := eventMatch_iff.mpr h
    simp [List.filter, hb]
  · rw [if_neg h]
    have hb : (e.userId == uid && e.activityType == atype && decide (s ≤ e.timestamp)) = false := by
      cases hc : (e.userId == uid && e.activityType == atype && decide (s ≤ e.timestamp))
      · rfl
      · exact absurd (eventMatch_iff.mp hc) h
    simp [List.filter, hb]

theorem countUsage_eq_zero_iff {ledger : Ledger} {uid : Nat} {atype : String} {s : Nat} :
    countUsage ledger uid atype s = 0
      ↔ ∀ e ∈ ledger, ¬(e.userId = uid ∧ e.activityType = atype ∧ s ≤ e.timestamp) := by
  unfold countUsage
  rw [List.length_eq_zero, List.filter_eq_nil_iff]
  constructor
  · intro h e he hc
    exact h e he (eventMatch_iff.mpr hc)
  · intro h e he hc
    exact h e he (eventMatch_iff.mp hc)

/-! ### Execution lemmas for the wrapper -/

theorem call_unlimited {cfg : LimitConfig} {ep : String} {u : User} {now : DateTime}
    {r : Except String Unit} {ledger : Ledger}
    (h : tierLimitsGet cfg u.pricingTier = -1) :
    limitAiUsageCall cfg ep u now r ledger
      = { outcome := match r with
            | .ok _ => CallOutcome.success
            | .error e => CallOutcome.opError e
          ledger := ledger
          ledgerReads := 0 } := by
  unfold limitAiUsageCall
  rw [if_pos h]
  cases r
  · rfl
  · rfl

theorem call_denied {cfg : LimitConfig} {ep : String} {u : User} {now : DateTime}
    {r : Except String Unit} {ledger : Ledger}
    (h1 : tierLimitsGet cfg u.pricingTier ≠ -1)
    (h2 : tierLimitsGet cfg u.pricingTier
      ≤ (countUsage ledger u.id (activityTypeFor ep)
          (toSecs (startTime cfg.resetPeriod now)) : Int)) :
    limitAiUsageCall cfg ep u now r ledger
      = { outcome := CallOutcome.denied 429
            { message := pyTitle cfg.resetPeriod ++ " AI usage limit reached ("
                ++ toString (countUsage ledger u.id (activityTypeFor ep)
                    (toSecs (startTime cfg.resetPeriod now)))
                ++ "/" ++ toString (tierLimitsGet cfg u.pricingTier)
                ++ " used). Upgrade to " ++ tierFeaturesName u.pricingTier
                ++ " tier for more AI calls."
              upgradeRequired := true
              currentUsage := countUsage ledger u.id (activityTypeFor ep)
                (toSecs (startTime cfg.resetPeriod now))
              limit := tierLimitsGet cfg u.pricingTier
              resetTimeIso := isoformat (resetTime cfg.resetPeriod now)
              currentTier := u.pricingTier
              tierName := tierFeaturesName u.pricingTier
              resetPeriod := cfg.resetPeriod
              endpoint := ep }
          ledger := ledger
          ledgerReads := 1 } := by
  unfold limitAiUsageCall
  rw [if_neg h1, if_pos h2]

theorem call_allowed_ok {cfg : LimitConfig} {ep : String} {u : User} {now : DateTime}
    {ledger : Ledger}
    (h1 : tierLimitsGet cfg u.pricingTier ≠ -1)
    (h2 : (countUsage ledger u.id (activityTypeFor ep)
        (toSecs (startTime cfg.resetPeriod now)) : Int)
      < tierLimitsGet cfg u.pricingTier) :
    limitAiUsageCall cfg ep u now (Except.ok ()) ledger
      = { outcome := CallOutcome.success
          ledger := ledger ++
            [{ userId := u.id
               activityType := activityTypeFor ep
               timestamp := toSecs now }]
          ledgerReads := 1 } := by
  unfold limitAiUsageCall
  rw [if_neg h1, if_neg (by omega)]

theorem call_allowed_error {cfg : LimitConfig} {ep : String} {u : User} {now : DateTime}
    {ledger : Ledger} {msg : String}
    (h1 : tierLimitsGet cfg u.pricingTier ≠ -1)
    (h2 : (countUsage ledger u.id (activityTypeFor ep)
        (toSecs (startTime cfg.resetPeriod now)) : Int)
      < tierLimitsGet cfg u.pricingTier) :
    limitAiUsageCall cfg ep u now (Except.error msg) ledger
      = { outcome := CallOutcome.opError msg
          ledger := ledger
          ledgerReads := 1 } := by
  unfold limitAiUsageCall
  rw [if_neg h1, if_neg (by omega)]

/-! ### Helper lemmas for call sequences -/

theorem hour_addDays {n : Nat} {t : DateTime} : (addDays n t).hour = t.hour := by
  induction n generalizing t with
  | zero => rfl
  | succ k ih =>
    show (addDays k (nextDay t)).hour = t.hour
    rw [ih, hour_nextDay]

theorem minute_addDays {n : Nat} {t : DateTime} : (addDays n t).minute = t.minute := by
  induction n generalizing t with
  | zero => rfl
  | succ k ih =>
    show (addDays k (nextDay t)).minute = t.minute
    rw [ih, minute_nextDay]

theorem second_addDays {n : Nat} {t : DateTime} : (addDays n t).second = t.second := by
  induction n generalizing t with
  | zero => rfl
  | succ k ih =>
    show (addDays k (nextDay t)).second = t.second
    rw [ih, second_nextDay]

theorem midnight_eq_self {t : DateTime} (hh : t.hour = 0) (hm : t.minute = 0)
    (hs : t.second = 0) : midnight t = t := by
  cases t
  simp_all [midnight]

theorem toOrdinal_le_toSecs_div {t : DateTime} :
    toOrdinal t * 86400 ≤ toSecs t := by
  unfold toSecs
  omega

/-- A call whose protected operation fails never changes the ledger. -/
theorem error_call_ledger {cfg : LimitConfig} {ep : String} {u : User}
    {now : DateTime} {msg : String} {ledger : Ledger} :
    (limitAiUsageCall cfg ep u now (Except.error msg) ledger).ledger = ledger := by
  by_cases hm : tierLimitsGet cfg u.pricingTier = -1
  · rw [call_unlimited hm]
  · by_cases hd : tierLimitsGet cfg u.pricingTier
      ≤ (countUsage ledger u.id (activityTypeFor ep)
          (toSecs (startTime cfg.resetPeriod now)) : Int)
    · rw [call_denied hm hd]
    · rw [call_allowed_error hm (by omega)]

/-- The ledger after any call is either unchanged, or extended by exactly the
one usage row of this call's endpoint. -/
theorem call_ledger_cases {cfg : LimitConfig} {ep : String} {u : User}
    {now : DateTime} {r : Except String Unit} {ledger : Ledger} :
    (limitAiUsageCall cfg ep u now r ledger).ledger = ledger
    ∨ (limitAiUsageCall cfg ep u now r ledger).ledger
        = ledger ++
          [{ userId := u.id
             activityType := activityTypeFor ep
             timestamp := toSecs now }] := by
  by_cases hm : tierLimitsGet cfg u.pricingTier = -1
  · rw [call_unlimited hm]
    exact Or.inl rfl
  · by_cases hd : tierLimitsGet cfg u.pricingTier
      ≤ (countUsage ledger u.id (activityTypeFor ep)
          (toSecs (startTime cfg.resetPeriod now)) : Int)
    · rw [call_denied hm hd]
      exact Or.inl rfl
    · cases r with
      | ok v =>
          cases v
          rw [call_allowed_ok hm (by omega)]
          exact Or.inr rfl
      | error msg =>
          rw [call_allowed_error hm (by omega)]
          exact Or.inl rfl

theorem runCalls_nil {cfg : LimitConfig} {ep : String} {u : User} {ledger : Ledger} :
    runCalls cfg ep u [] ledger = ([], ledger) := rfl

theorem runCalls_cons {cfg : LimitConfig} {ep : String} {u : User}
    {t : DateTime} {ts : List DateTime} {ledger : Ledger} :
    runCalls cfg ep u (t :: ts) ledger
      = ((limitAiUsageCall cfg ep u t (Except.ok ()) ledger).outcome
            :: (runCalls cfg ep u ts (limitAiUsageCall cfg ep u t (Except.ok ()) ledger).ledger).1,
         (runCalls cfg ep u ts (limitAiUsageCall cfg ep u t (Except.ok ()) ledger).ledger).2) := rfl

/-- While the running count stays below the limit, every successful call in
the shared window is admitted, the count advances by exactly one per call,
and every ledger row is either pre-existing or one of this run's rows. -/
theorem runCalls_ok_invariant
    (cfg : LimitConfig) (ep : String) (u : User) (L : Int)
    (hL : tierLimitsGet cfg u.pricingTier = L) (hL0 : 0 ≤ L) :
    ∀ (nows : List DateTime) (ledger : Ledger) (s k : Nat),
      (∀ t ∈ nows, Valid t) →
      (∀ t ∈ nows, windowStartOrd cfg.resetPeriod t = s) →
      countUsage ledger u.id (activityTypeFor ep) (s * 86400) = k →
      ((k : Int) + nows.length ≤ L) →
      (runCalls cfg ep u nows ledger).1 = List.replicate nows.length CallOutcome.success
      ∧ countUsage (runCalls cfg ep u nows ledger).2 u.id (activityTypeFor ep) (s * 86400)
          = k + nows.length
      ∧ (∀ e ∈ (runCalls cfg ep u nows ledger).2,
          e ∈ ledger ∨ (e.userId = u.id ∧ e.activityType = activityTypeFor ep
            ∧ ∃ t ∈ nows, e.timestamp = toSecs t)) := by
  intro nows
  induction nows with
  | nil =>
      intro ledger s k _ _ hcount _
      refine ⟨rfl, ?_, ?_⟩
      · rw [runCalls_nil]
        simpa using hcount
      · rw [runCalls_nil]
        intro e he
        exact Or.inl he
  | cons t ts ih =>
      intro ledger s k hv hs hcount hk
      have hvt : Valid t := hv t (List.mem_cons_self t ts)
      have hst : windowStartOrd cfg.resetPeriod t = s := hs t (List.mem_cons_self t ts)
      have hstart : toSecs (startTime cfg.resetPeriod t) = s * 86400 := by
        rw [toSecs_startTime, hst]
      have hcall : limitAiUsageCall cfg ep u t (Except.ok ()) ledger
          = { outcome := CallOutcome.success
              ledger := ledger ++
                [{ userId := u.id
                   activityType := activityTypeFor ep
                   timestamp := toSecs t }]
              ledgerReads := 1 } := by
        apply call_allowed_ok (by omega)
        rw [hstart, hcount]
        have : (ts.length : Int) ≥ 0 := by positivity
        simp only [List.length_cons] at hk
        push_cast at hk
        omega
      have hts_ge : s * 86400 ≤ toSecs t := by
        have h1 := windowStartOrd_le (p := cfg.resetPeriod) hvt
        have h2 := toOrdinal_le_toSecs_div (t := t)
        rw [hst] at h1
        have : s * 86400 ≤ toOrdinal t * 86400 := by
          exact Nat.mul_le_mul_right _ h1
        omega
      have hcount' : countUsage (ledger ++
            [{ userId := u.id
               activityType := activityTypeFor ep
               timestamp := toSecs t }]) u.id (activityTypeFor ep) (s * 86400) = k + 1 := by
        rw [countUsage_append, hcount, if_pos ⟨rfl, rfl, hts_ge⟩]
      have hrec := ih (ledger ++
          [{ userId := u.id
             activityType := activityTypeFor ep
             timestamp := toSecs t }]) s (k + 1)
        (fun x hx => hv x (List.mem_cons_of_mem t hx))
        (fun x hx => hs x (List.mem_cons_of_mem t hx))
        hcount'
        (by simp only [List.length_cons] at hk; push_cast at hk ⊢; omega)
      rw [runCalls_cons, hcall]
      refine ⟨?_, ?_, ?_⟩
      · show CallOutcome.success :: _ = _
        rw [List.length_cons, List.replicate_succ]
        exact congrArg _ hrec.1
      · show countUsage (runCalls cfg ep u ts _).2 u.id (activityTypeFor ep) (s * 86400) = _
        rw [hrec.2.1]
        simp [List.length_cons]
        omega
      · intro e he
        rcases hrec.2.2 e he with hmem | hnew
        · rcases List.mem_append.mp hmem with h1 | h2
          · exact Or.inl h1
          · have he2 : e = { userId := u.id
                             activityType := activityTypeFor ep
                             timestamp := toSecs t } := by simpa using h2
            subst he2
            exact Or.inr ⟨rfl, rfl, t, List.mem_cons_self t ts, rfl⟩
        · obtain ⟨h1, h2, x, hx, h3⟩ := hnew
          exact Or.inr ⟨h1, h2, x, List.mem_cons_of_mem t hx, h3⟩

theorem runCallsWith_cons {cfg : LimitConfig} {ep : String} {u : User}
    {t : DateTime} {r : Except String Unit}
    {rest : List (DateTime × Except String Unit)} {ledger : Ledger} :
    runCallsWith cfg ep u ((t, r) :: rest) ledger
      = ((limitAiUsageCall cfg ep u t r ledger).outcome
            :: (runCallsWith cfg ep u rest (limitAiUsageCall cfg ep u t r ledger).ledger).1,
         (runCallsWith cfg ep u rest (limitAiUsageCall cfg ep u t r ledger).ledger).2) := rfl

/-- A run in which every protected operation fails leaves the ledger
exactly as it was. -/
theorem runFailingCalls_ledger {cfg : LimitConfig} {ep : String} {u : User} :
    ∀ (fails : List (DateTime × String)) (ledger : Ledger),
      (runCallsWith cfg ep u (fails.map (fun f => (f.1, Except.error f.2))) ledger).2
        = ledger := by
  intro fails
  induction fails with
  | nil => intro ledger; rfl
  | cons f fs ih =>
      intro ledger
      show (runCallsWith cfg ep u ((f.1, Except.error f.2)
        :: fs.map (fun f => (f.1, Except.error f.2))) ledger).2 = ledger
      rw [runCallsWith_cons]
      show (runCallsWith cfg ep u _ (limitAiUsageCall cfg ep u f.1 (Except.error f.2) ledger).ledger).2 = ledger
      rw [error_call_ledger]
      exact ih ledger

/-- C2: usage is appended only after the protected operation succeeds. On a
denial the ledger is unchanged; if the operation errors, that error
propagates unchanged and the ledger is unchanged; a run of N failing calls
leaves the ledger, and hence every usage count, exactly as before. -/
theorem usage_recorded_only_on_success
    (cfg : LimitConfig) (ep : String) (u : User) (ledger : Ledger) (s : Nat) :
    (∀ now r, (limitAiUsageCall cfg ep u now r ledger).outcome.isDenied = true →
        (limitAiUsageCall cfg ep u now r ledger).ledger = ledger)
    ∧ (∀ now msg, (limitAiUsageCall cfg ep u now (Except.error msg) ledger).ledger = ledger
        ∧ ((limitAiUsageCall cfg ep u now (Except.error msg) ledger).outcome.isDenied = false →
            (limitAiUsageCall cfg ep u now (Except.error msg) ledger).outcome
              = CallOutcome.opError msg))
    ∧ (∀ fails : List (DateTime × String),
        (runCallsWith cfg ep u (fails.map (fun f => (f.1, Except.error f.2))) ledger).2 = ledger
        ∧ countUsage (runCallsWith cfg ep u (fails.map (fun f => (f.1, Except.error f.2))) ledger).2
            u.id (activityTypeFor ep) s
          = countUsage ledger u.id (activityTypeFor ep) s) := by
  refine ⟨?_, ?_, ?_⟩
  · intro now r hd
    by_cases hm : tierLimitsGet cfg u.pricingTier = -1
    · rw [call_unlimited hm]
    · by_cases hden : tierLimitsGet cfg u.pricingTier
        ≤ (countUsage ledger u.id (activityTypeFor ep)
            (toSecs (startTime cfg.resetPeriod now)) : Int)
      · rw [call_denied hm hden]
      · cases r with
        | ok v =>
            cases v
            rw [call_allowed_ok hm (by omega)] at hd
            simp [CallOutcome.isDenied] at hd
        | error msg =>
            rw [call_allowed_error hm (by omega)] at hd
            simp [CallOutcome.isDenied] at hd
  · intro now msg
    refine ⟨error_call_ledger, ?_⟩
    intro hnd
    by_cases hm : tierLimitsGet cfg u.pricingTier = -1
    · rw [call_unlimited hm]
    · by_cases hden : tierLimitsGet cfg u.pricingTier
        ≤ (countUsage ledger u.id (activityTypeFor ep)
            (toSecs (startTime cfg.resetPeriod now)) : Int)
      · rw [call_denied hm hden] at hnd
        simp [CallOutcome.isDenied] at hnd
      · rw [call_allowed_error hm (by omega)]
  · intro fails
    refine ⟨runFailingCalls_ledger fails ledger, ?_⟩
    rw [runFailingCalls_ledger fails ledger]

/-- Witness for C2: one failing call at a concrete instant leaves the
concrete ledger empty and its error propagates. -/
theorem usage_recorded_only_on_success_witness :
    (limitAiUsageCall ⟨"daily", 1, 30, 100, -1⟩ "analyze" ⟨7, "free"⟩
        ⟨2024, 3, 15, 13, 0, 0⟩ (Except.error "boom") []).ledger = []
    ∧ (limitAiUsageCall ⟨"daily", 1, 30, 100, -1⟩ "analyze" ⟨7, "free"⟩
        ⟨2024, 3, 15, 13, 0, 0⟩ (Except.error "boom") []).outcome
      = CallOutcome.opError "boom" := by
  have h := usage_recorded_only_on_success ⟨"daily", 1, 30, 100, -1⟩ "analyze" ⟨7, "free"⟩ [] 0
  have h2 := h.2.1 ⟨2024, 3, 15, 13, 0, 0⟩ "boom"
  exact ⟨h2.1, h2.2 (by decide)⟩

/-- C7: a pricing tier other than free, spotlight, elite or icon resolves,
without error, to the free-tier limit in both the enforcement path and the
status-check path, and the wrapper's admission decision coincides with that
of a free-tier user with the same id. -/
theorem unknown_tier_falls_back_to_free
    (cfg : LimitConfig) (u : User) (ep : String) (now : DateTime)
    (r : Except String Unit) (ledger : Ledger)
    (h1 : u.pricingTier ≠ "free") (h2 : u.pricingTier ≠ "spotlight")
    (h3 : u.pricingTier ≠ "elite") (h4 : u.pricingTier ≠ "icon") :
    tierLimitsGet cfg u.pricingTier = cfg.freeLimit
    ∧ (checkAiUsageStatus u ep ledger cfg now).status.limit
        = (checkAiUsageStatus { id := u.id, pricingTier := "free" } ep ledger cfg now).status.limit
    ∧ (limitAiUsageCall cfg ep u now r ledger).outcome.isDenied
        = (limitAiUsageCall cfg ep { id := u.id, pricingTier := "free" } now r ledger).outcome.isDenied := by
  have hfree : tierLimitsGet cfg u.pricingTier = cfg.freeLimit := by
    unfold tierLimitsGet
    rw [if_neg h1, if_neg h2, if_neg h3, if_neg h4]
  have hfree2 : tierLimitsGet cfg ({ id := u.id, pricingTier := "free" } : User).pricingTier
      = cfg.freeLimit := by
    unfold tierLimitsGet
    rw [if_pos rfl]
  refine ⟨hfree, ?_, ?_⟩
  · unfold checkAiUsageStatus
    rw [hfree, hfree2]
    by_cases hm : cfg.freeLimit = -1
    · rw [if_pos hm, if_pos hm]
    · rw [if_neg hm, if_neg hm]
  · by_cases hm : cfg.freeLimit = -1
    · rw [call_unlimited (by rw [hfree]; exact hm), call_unlimited (by rw [hfree2]; exact hm)]
    · by_cases hden : cfg.freeLimit
        ≤ (countUsage ledger u.id (activityTypeFor ep)
            (toSecs (startTime cfg.resetPeriod now)) : Int)
      · rw [call_denied (by rw [hfree]; exact hm) (by rw [hfree]; exact hden),
          call_denied (by rw [hfree2]; exact hm) (by rw [hfree2]; exact hden)]
        rfl
      · have hred : ((countUsage ledger ({ id := u.id, pricingTier := "free" } : User).id
            (activityTypeFor ep) (toSecs (startTime cfg.resetPeriod now))) : Int)
            < tierLimitsGet cfg ({ id := u.id, pricingTier := "free" } : User).pricingTier := by
          rw [hfree2]
          show ((countUsage ledger u.id (activityTypeFor ep)
            (toSecs (startTime cfg.resetPeriod now))) : Int) < cfg.freeLimit
          omega
        cases r with
        | ok v =>
            cases v
            rw [call_allowed_ok (by rw [hfree]; exact hm) (by rw [hfree]; omega),
              call_allowed_ok (by rw [hfree2]; exact hm) hred]
        | error msg =>
            rw [call_allowed_error (by rw [hfree]; exact hm) (by rw [hfree]; omega),
              call_allowed_error (by rw [hfree2]; exact hm) hred]

/-- Witness for C7 at the unknown tier "platinum". -/
theorem unknown_tier_falls_back_to_free_witness :
    tierLimitsGet ⟨"daily", 1, 30, 100, -1⟩ "platinum" = 1 := by
  have h := unknown_tier_falls_back_to_free ⟨"daily", 1, 30, 100, -1⟩
    ⟨7, "platinum"⟩ "analyze" ⟨2024, 3, 15, 13, 0, 0⟩
    (Except.ok ()) [] (by decide) (by decide) (by decide) (by decide)
  simpa using h.1

/-- C9: usage rows carry the activity key `ai_usage_<endpoint>`; rows of a
different endpoint are never counted for this one, and a wrapped call of
endpoint `a` never changes the count of a distinct endpoint `b`, even for
the same user in the same window. -/
theorem actions_never_share_usage
    (cfg : LimitConfig) (a b : String) (u : User) (now : DateTime)
    (r : Except String Unit) (ledger : Ledger) (s ts : Nat) (hab : a ≠ b) :
    countUsage (ledger ++ [⟨u.id, activityTypeFor a, ts⟩]) u.id (activityTypeFor b) s
      = countUsage ledger u.id (activityTypeFor b) s
    ∧ countUsage (limitAiUsageCall cfg a u now r ledger).ledger u.id (activityTypeFor b) s
      = countUsage ledger u.id (activityTypeFor b) s := by
  have hne : activityTypeFor a ≠ activityTypeFor b := fun hc => hab (activityTypeFor_inj hc)
  have happ : ∀ ts' : Nat,
      countUsage (ledger ++ [⟨u.id, activityTypeFor a, ts'⟩]) u.id (activityTypeFor b) s
      = countUsage ledger u.id (activityTypeFor b) s := by
    intro ts'
    rw [countUsage_append, if_neg ?_]
    · omega
    · rintro ⟨_, hc, _⟩
      exact hne hc
  refine ⟨happ ts, ?_⟩
  rcases @call_ledger_cases cfg a u now r ledger with hcase | hcase
  · rw [hcase]
  · rw [hcase, happ _]

/-- Witness for C9: a recorded event of one endpoint leaves the other
endpoint's count at zero. -/
theorem actions_never_share_usage_witness :
    countUsage ([] ++ [⟨7, activityTypeFor "chatbot", 63846100000⟩]) 7
        (activityTypeFor "analyze") 0
      = countUsage [] 7 (activityTypeFor "analyze") 0 := by
  have h := actions_never_share_usage ⟨"daily", 1, 30, 100, -1⟩ "chatbot" "analyze"
    ⟨7, "free"⟩ ⟨2024, 3, 15, 13, 0, 0⟩ (Except.ok ()) [] 0 63846100000 (by decide)
  exact h.1

/-- C10: for a reset period that is none of daily, weekly or monthly, the
wrapper counts over the daily window start while reporting the monthly
window end as the reset instant. -/
theorem fallback_period_window_mismatch
    (p : String) (now : DateTime)
    (h1 : p ≠ "daily") (h2 : p ≠ "weekly") (h3 : p ≠ "monthly") :
    startTime p now = startTime "daily" now
    ∧ resetTime p now = resetTime "monthly" now := by
  constructor
  · unfold startTime
    rw [if_neg h1, if_neg h2, if_neg h3, if_pos rfl]
  · unfold resetTime
    rw [if_neg h1, if_neg h2,
      if_neg (show ¬("monthly" = "daily") by decide),
      if_neg (show ¬("monthly" = "weekly") by decide)]

/-- Witness for C10 at the unconfigured period "yearly". -/
theorem fallback_period_window_mismatch_witness :
    startTime "yearly" ⟨2024, 3, 15, 13, 0, 0⟩ = startTime "daily" ⟨2024, 3, 15, 13, 0, 0⟩
    ∧ resetTime "yearly" ⟨2024, 3, 15, 13, 0, 0⟩ = resetTime "monthly" ⟨2024, 3, 15, 13, 0, 0⟩ :=
  fallback_period_window_mismatch "yearly" ⟨2024, 3, 15, 13, 0, 0⟩
    (by decide) (by decide) (by decide)

/-- C3 counterexample: for an unlimited tier the status-check dict carries no
`allowed` key at all (modelled as `none`), so the status path does not
return `allowed = true` as claimed. -/
theorem unlimited_status_lacks_allowed_key :
    (checkAiUsageStatus ⟨7, "icon"⟩ "analyze" [] ⟨"daily", 1, 30, 100, -1⟩
        ⟨2024, 3, 15, 13, 0, 0⟩).status.unlimited = true
    ∧ (checkAiUsageStatus ⟨7, "icon"⟩ "analyze" [] ⟨"daily", 1, 30, 100, -1⟩
        ⟨2024, 3, 15, 13, 0, 0⟩).status.allowed ≠ some true := by
  decide

/-- C3 (amended): an unlimited resolved limit (-1) performs no ledger read
in either path; the enforcement path runs the operation and appends nothing,
and the status path returns `unlimited = true` with limit -1 and no
`allowed` key. -/
theorem unlimited_skips_ledger
    (cfg : LimitConfig) (u : User) (ep : String) (now : DateTime)
    (r : Except String Unit) (ledger : Ledger)
    (h : tierLimitsGet cfg u.pricingTier = -1) :
    (limitAiUsageCall cfg ep u now r ledger).ledgerReads = 0
    ∧ (limitAiUsageCall cfg ep u now r ledger).ledger = ledger
    ∧ (limitAiUsageCall cfg ep u now (Except.ok ()) ledger).outcome = CallOutcome.success
    ∧ (checkAiUsageStatus u ep ledger cfg now).ledgerReads = 0
    ∧ (checkAiUsageStatus u ep ledger cfg now).status.unlimited = true
    ∧ (checkAiUsageStatus u ep ledger cfg now).status.limit = -1
    ∧ (checkAiUsageStatus u ep ledger cfg now).status.allowed = none := by
  rw [call_unlimited h, call_unlimited h]
  refine ⟨rfl, rfl, rfl, ?_, ?_, ?_, ?_⟩ <;>
    · unfold checkAiUsageStatus
      rw [if_pos h]

/-- Witness for C3's amended theorem at the icon tier. -/
theorem unlimited_skips_ledger_witness :
    (limitAiUsageCall ⟨"daily", 1, 30, 100, -1⟩ "analyze" ⟨7, "icon"⟩
        ⟨2024, 3, 15, 13, 0, 0⟩ (Except.ok ()) []).ledgerReads = 0 := by
  have h := unlimited_skips_ledger ⟨"daily", 1, 30, 100, -1⟩ ⟨7, "icon"⟩ "analyze"
    ⟨2024, 3, 15, 13, 0, 0⟩ (Except.ok ()) [] (by decide)
  exact h.1

/-- C6 counterexample: an event timestamped at or after the window's end is
still counted, because the query has no upper time bound. -/
theorem count_ignores_window_end :
    toSecs (resetTime "daily" ⟨2024, 3, 15, 13, 0, 0⟩) ≤ 63846230400
    ∧ countUsage [⟨7, "ai_usage_analyze", 63846230400⟩] 7 "ai_usage_analyze"
        (toSecs (startTime "daily" ⟨2024, 3, 15, 13, 0, 0⟩)) = 1 := by
  decide

/-- C6 (amended): the count is over all events with timestamp ≥ start, with
no upper bound; it agrees with the spec's half-open [start, end) count
exactly on ledgers whose matching events all lie before the window end. -/
theorem countUsage_eq_halfOpen
    (ledger : Ledger) (uid : Nat) (atype : String) (s e : Nat)
    (h : ∀ ev ∈ ledger, ev.userId = uid → ev.activityType = atype → ev.timestamp < e) :
    countUsage ledger uid atype s = countUsageInWindowSpec ledger uid atype s e := by
  unfold countUsage countUsageInWindowSpec
  congr 1
  apply List.filter_congr
  intro ev hev
  by_cases h1 : ev.userId = uid
  · by_cases h2 : ev.activityType = atype
    · have h3 := h ev hev h1 h2
      simp [h1, h2, h3, Nat.le_of_lt h3]
    · simp [h2]
  · simp [h1]

/-- Witness for C6's amended theorem on a one-event ledger inside the
window. -/
theorem countUsage_eq_halfOpen_witness :
    countUsage [⟨7, "ai_usage_analyze", 63846100000⟩] 7 "ai_usage_analyze" 63846057600
      = countUsageInWindowSpec [⟨7, "ai_usage_analyze", 63846100000⟩] 7
          "ai_usage_analyze" 63846057600 63846144000 := by
  apply countUsage_eq_halfOpen
  decide

/-- C8 counterexample: a concrete denial whose message is not the bare
template the claim states — the code's message inserts "AI" and appends an
upgrade suggestion. -/
theorem denial_message_not_bare_template :
    (limitAiUsageCall ⟨"daily", 1, 30, 100, -1⟩ "analyze" ⟨7, "free"⟩
        ⟨2024, 3, 15, 14, 0, 0⟩ (Except.ok ())
        [⟨7, "ai_usage_analyze", 63846100000⟩]).outcome
      = CallOutcome.denied 429
          { message := "Daily AI usage limit reached (1/1 used). Upgrade to Free tier for more AI calls."
            upgradeRequired := true
            currentUsage := 1
            limit := 1
            resetTimeIso := "2024-03-16T00:00:00+00:00"
            currentTier := "free"
            tierName := "Free"
            resetPeriod := "daily"
            endpoint := "analyze" }
    ∧ "Daily AI usage limit reached (1/1 used). Upgrade to Free tier for more AI calls."
        ≠ "Daily usage limit reached (1/1 used)." := by
  decide

/-- C8 (amended): every denial is an HTTP 429 whose detail carries the used
count, the resolved limit, the reset instant in ISO-8601 UTC, the acting
tier, the action (endpoint) and the upgrade flag, with the message
"(Period) AI usage limit reached ((used)/(limit) used). Upgrade to
(tier name) tier for more AI calls." — not the spec's bare template. -/
theorem denial_payload_contract
    (cfg : LimitConfig) (ep : String) (u : User) (now : DateTime)
    (r : Except String Unit) (ledger : Ledger)
    (h1 : tierLimitsGet cfg u.pricingTier ≠ -1)
    (h2 : tierLimitsGet cfg u.pricingTier
      ≤ (countUsage ledger u.id (activityTypeFor ep)
          (toSecs (startTime cfg.resetPeriod now)) : Int)) :
    limitAiUsageCall cfg ep u now r ledger
      = { outcome := CallOutcome.denied 429
            { message := pyTitle cfg.resetPeriod ++ " AI usage limit reached ("
                ++ toString (countUsage ledger u.id (activityTypeFor ep)
                    (toSecs (startTime cfg.resetPeriod now)))
                ++ "/" ++ toString (tierLimitsGet cfg u.pricingTier)
                ++ " used). Upgrade to " ++ tierFeaturesName u.pricingTier
                ++ " tier for more AI calls."
              upgradeRequired := true
              currentUsage := countUsage ledger u.id (activityTypeFor ep)
                (toSecs (startTime cfg.resetPeriod now))
              limit := tierLimitsGet cfg u.pricingTier
              resetTimeIso := isoformat (resetTime cfg.resetPeriod now)
              currentTier := u.pricingTier
              tierName := tierFeaturesName u.pricingTier
              resetPeriod := cfg.resetPeriod
              endpoint := ep }
          ledger := ledger
          ledgerReads := 1 } :=
  call_denied h1 h2

/-- Witness for C8's amended payload contract at a concrete denial. -/
theorem denial_payload_contract_witness :
    (limitAiUsageCall ⟨"daily", 1, 30, 100, -1⟩ "analyze" ⟨7, "free"⟩
        ⟨2024, 3, 15, 14, 0, 0⟩ (Except.ok ())
        [⟨7, "ai_usage_analyze", 63846100000⟩]).ledger
      = [⟨7, "ai_usage_analyze", 63846100000⟩] := by
  have h := denial_payload_contract ⟨"daily", 1, 30, 100, -1⟩ "analyze" ⟨7, "free"⟩
    ⟨2024, 3, 15, 14, 0, 0⟩ (Except.ok ()) [⟨7, "ai_usage_analyze", 63846100000⟩]
    (by decide) (by decide)
  rw [h]

/-- C5: the spec's window test vectors. A Wednesday maps to the preceding
Monday's week; a Monday at midnight starts its own week, with the reset a
full seven days ahead; December rolls the monthly window into the next
year. -/
theorem window_test_vectors :
    startTime "weekly" ⟨2024, 3, 13, 10, 0, 0⟩ = ⟨2024, 3, 11, 0, 0, 0⟩
    ∧ resetTime "weekly" ⟨2024, 3, 13, 10, 0, 0⟩ = ⟨2024, 3, 18, 0, 0, 0⟩
    ∧ weekday ⟨2024, 3, 13, 10, 0, 0⟩ = 2
    ∧ (∀ t : DateTime, weekday t = 0 → t.hour = 0 → t.minute = 0 → t.second = 0 →
        startTime "weekly" t = t ∧ resetTime "weekly" t = addDays 7 t)
    ∧ startTime "monthly" ⟨2024, 12, 20, 0, 0, 0⟩ = ⟨2024, 12, 1, 0, 0, 0⟩
    ∧ resetTime "monthly" ⟨2024, 12, 20, 0, 0, 0⟩ = ⟨2025, 1, 1, 0, 0, 0⟩ := by
  refine ⟨by decide, by decide, by decide, ?_, by decide, by decide⟩
  intro t hw hh hm hs
  constructor
  · unfold startTime
    rw [if_neg (show ¬("weekly" = "daily") by decide), if_pos rfl, hw]
    show midnight t = t
    exact midnight_eq_self hh hm hs
  · unfold resetTime
    rw [if_neg (show ¬("weekly" = "daily") by decide), if_pos rfl, hw]
    show midnight (addDays 7 t) = addDays 7 t
    refine midnight_eq_self ?_ ?_ ?_
    · rw [hour_addDays]
      exact hh
    · rw [minute_addDays]
      exact hm
    · rw [second_addDays]
      exact hs

/-- Witness for C5's universal Monday clause at 2024-03-11T00:00:00Z. -/
theorem window_test_vectors_witness :
    startTime "weekly" ⟨2024, 3, 11, 0, 0, 0⟩ = ⟨2024, 3, 11, 0, 0, 0⟩
    ∧ resetTime "weekly" ⟨2024, 3, 11, 0, 0, 0⟩ = addDays 7 ⟨2024, 3, 11, 0, 0, 0⟩ :=
  window_test_vectors.2.2.2.1 ⟨2024, 3, 11, 0, 0, 0⟩
    (by decide) (by decide) (by decide) (by decide)

/-- C4: the reported reset instant is the end of the window containing now —
start + 1 day for daily; start + 7 days (the next Monday, a full week ahead
on a Monday) for weekly; the first of the next month, rolling the year after
December, for monthly — and it is identical for any two instants sharing a
window. -/
theorem reset_at_is_window_end
    (now t1 t2 : DateTime) (p : String)
    (hv : Valid now) (hv1 : Valid t1) (hv2 : Valid t2)
    (hp : p = "daily" ∨ p = "weekly" ∨ p = "monthly") :
    toOrdinal (resetTime "daily" now) = windowStartOrd "daily" now + 1
    ∧ toOrdinal (resetTime "weekly" now) = windowStartOrd "weekly" now + 7
    ∧ toOrdinal (resetTime "weekly" now) % 7 = 0
    ∧ (weekday now = 0 → toOrdinal (resetTime "weekly" now) = toOrdinal now + 7)
    ∧ windowStartOrd "monthly" now = monthStartOrd now.year now.month
    ∧ toOrdinal (resetTime "monthly" now)
        = monthStartOrd (nextYM now.year now.month).1 (nextYM now.year now.month).2
    ∧ resetTime "monthly" now
        = (if now.month = 12 then (⟨now.year + 1, 1, 1, 0, 0, 0⟩ : DateTime)
           else ⟨now.year, now.month + 1, 1, 0, 0, 0⟩)
    ∧ (windowStartOrd p t1 = windowStartOrd p t2 → resetTime p t1 = resetTime p t2) := by
  refine ⟨?_, ?_, ?_, ?_, windowStartOrd_monthly,
    resetOrd_monthly (by decide) (by decide), ?_,
    fun h => resetTime_eq_of_same_window hp hv1 hv2 h⟩
  · rw [resetOrd_daily hv, windowStartOrd_daily]
  · rw [resetOrd_weekly hv, windowStartOrd_weekly hv]
    have he : weekday now = toOrdinal now % 7 := rfl
    omega
  · rw [resetOrd_weekly hv]
    have he : weekday now = toOrdinal now % 7 := rfl
    omega
  · intro hw
    rw [resetOrd_weekly hv, hw]
  · unfold resetTime
    rw [if_neg (show ¬("monthly" = "daily") by decide),
      if_neg (show ¬("monthly" = "weekly") by decide)]

/-- Witness for C4 at a concrete instant and period. -/
theorem reset_at_is_window_end_witness :
    toOrdinal (resetTime "daily" ⟨2024, 3, 15, 13, 0, 0⟩)
      = windowStartOrd "daily" ⟨2024, 3, 15, 13, 0, 0⟩ + 1 :=
  (reset_at_is_window_end ⟨2024, 3, 15, 13, 0, 0⟩ ⟨2024, 3, 15, 13, 0, 0⟩
    ⟨2024, 3, 15, 13, 0, 0⟩ "daily" (by decide) (by decide) (by decide)
    (Or.inl rfl)).1

/-- C1 counterexample: with the non-negative resolved limit L = 0 and an
empty ledger, the reset instant of the previous day's window has passed, yet
the next call is still denied — so the claim's "after reset_at the next call
is allowed again" fails for L = 0. -/
theorem zero_limit_denies_after_reset :
    tierLimitsGet ⟨"daily", 0, 30, 100, -1⟩ "free" = 0
    ∧ toSecs (resetTime "daily" ⟨2024, 3, 15, 13, 0, 0⟩) < toSecs ⟨2024, 3, 16, 1, 0, 0⟩
    ∧ countUsage [] 7 (activityTypeFor "analyze")
        (toSecs (startTime "daily" ⟨2024, 3, 16, 1, 0, 0⟩)) = 0
    ∧ (limitAiUsageCall ⟨"daily", 0, 30, 100, -1⟩ "analyze" ⟨7, "free"⟩
        ⟨2024, 3, 16, 1, 0, 0⟩ (Except.ok ()) []).outcome.isDenied = true := by
  decide

/-- C1 (amended, limit ≥ 1): for a resolved tier limit L ≥ 1 and a window
with no prior usage, the first L successful calls within the window are all
admitted, the (L+1)-th call in the same window is rejected with HTTP 429,
and the first call after the window's reset instant has passed is admitted
again. -/
theorem quota_window_enforcement
    (cfg : LimitConfig) (ep : String) (u : User) (L : Nat)
    (hp : cfg.resetPeriod = "daily" ∨ cfg.resetPeriod = "weekly" ∨ cfg.resetPeriod = "monthly")
    (hL : tierLimitsGet cfg u.pricingTier = (L : Int)) (hL1 : 1 ≤ L)
    (nows : List DateTime) (hlen : nows.length = L)
    (hv : ∀ t ∈ nows, Valid t) (s : Nat)
    (hs : ∀ t ∈ nows, windowStartOrd cfg.resetPeriod t = s)
    (ledger0 : Ledger)
    (h0 : countUsage ledger0 u.id (activityTypeFor ep) (s * 86400) = 0)
    (nowX : DateTime) (hvX : Valid nowX)
    (hsX : windowStartOrd cfg.resetPeriod nowX = s)
    (now2 : DateTime) (hv2 : Valid now2)
    (h2 : toSecs (resetTime cfg.resetPeriod nowX) < toSecs now2) :
    (runCalls cfg ep u nows ledger0).1 = List.replicate L CallOutcome.success
    ∧ (limitAiUsageCall cfg ep u nowX (Except.ok ())
        (runCalls cfg ep u nows ledger0).2).outcome.isDenied = true
    ∧ (limitAiUsageCall cfg ep u nowX (Except.ok ())
        (runCalls cfg ep u nows ledger0).2).outcome.statusCode = some 429
    ∧ (limitAiUsageCall cfg ep u now2 (Except.ok ())
        (limitAiUsageCall cfg ep u nowX (Except.ok ())
          (runCalls cfg ep u nows ledger0).2).ledger).outcome = CallOutcome.success := by
  have hL0 : (0 : Int) ≤ (L : Int) := by positivity
  obtain ⟨houts, hcount, hmem⟩ := runCalls_ok_invariant cfg ep u (L : Int) hL hL0
    nows ledger0 s 0 hv hs h0 (by rw [hlen]; push_cast; omega)
  have hcountL : countUsage (runCalls cfg ep u nows ledger0).2 u.id (activityTypeFor ep)
      (s * 86400) = L := by
    rw [hcount]
    omega
  have hstartX : toSecs (startTime cfg.resetPeriod nowX) = s * 86400 := by
    rw [toSecs_startTime, hsX]
  have hm1 : tierLimitsGet cfg u.pricingTier ≠ -1 := by
    rw [hL]
    omega
  have hden := @call_denied cfg ep u nowX (Except.ok ())
    ((runCalls cfg ep u nows ledger0).2) hm1
    (by rw [hL, hstartX, hcountL])
  refine ⟨by rw [houts, hlen], by rw [hden]; rfl, by rw [hden]; rfl, ?_⟩
  have hledX : (limitAiUsageCall cfg ep u nowX (Except.ok ())
      (runCalls cfg ep u nows ledger0).2).ledger = (runCalls cfg ep u nows ledger0).2 := by
    rw [hden]
  rw [hledX]
  have hreset_le : toOrdinal (resetTime cfg.resetPeriod nowX)
      ≤ windowStartOrd cfg.resetPeriod now2 :=
    reset_le_windowStart hp hvX hv2 (le_of_lt h2)
  have hslt : s < toOrdinal (resetTime cfg.resetPeriod nowX) := by
    have hwle := windowStartOrd_le (p := cfg.resetPeriod) hvX
    have hlt := toOrdinal_lt_resetOrd (p := cfg.resetPeriod) hvX
    rw [hsX] at hwle
    omega
  have hcount2 : countUsage (runCalls cfg ep u nows ledger0).2 u.id (activityTypeFor ep)
      (windowStartOrd cfg.resetPeriod now2 * 86400) = 0 := by
    rw [countUsage_eq_zero_iff]
    intro e he hc
    obtain ⟨hcu, hca, hct⟩ := hc
    rcases hmem e he with hold | hnew
    · apply countUsage_eq_zero_iff.mp h0 e hold
      refine ⟨hcu, hca, ?_⟩
      have hm : s * 86400 ≤ windowStartOrd cfg.resetPeriod now2 * 86400 :=
        Nat.mul_le_mul_right _ (by omega)
      omega
    · obtain ⟨_, _, t, ht, hts⟩ := hnew
      have hvt := hv t ht
      have hwt := hs t ht
      have hsame : resetTime cfg.resetPeriod t = resetTime cfg.resetPeriod nowX :=
        resetTime_eq_of_same_window hp hvt hvX (by rw [hwt, hsX])
      have hlt := toOrdinal_lt_resetOrd (p := cfg.resetPeriod) hvt
      have hsod := secsOfDay_lt hvt
      have hdec : toSecs t = toOrdinal t * 86400 + secsOfDay t := rfl
      have h5 : toSecs t < toOrdinal (resetTime cfg.resetPeriod t) * 86400 := by
        omega
      rw [hsame] at h5
      have h6 : toOrdinal (resetTime cfg.resetPeriod nowX) * 86400
          ≤ windowStartOrd cfg.resetPeriod now2 * 86400 :=
        Nat.mul_le_mul_right _ hreset_le
      omega
  rw [call_allowed_ok hm1 (by rw [toSecs_startTime, hcount2, hL]; push_cast; omega)]

/-- Witness for C1: with a daily limit of 2, two calls on 2024-03-15 are
admitted, a third that day is rejected with 429, and a call the next morning
is admitted again. -/
theorem quota_window_enforcement_witness :
    (limitAiUsageCall ⟨"daily", 2, 30, 100, -1⟩ "analyze" ⟨7, "free"⟩
        ⟨2024, 3, 15, 15, 0, 0⟩ (Except.ok ())
        (runCalls ⟨"daily", 2, 30, 100, -1⟩ "analyze" ⟨7, "free"⟩
          [⟨2024, 3, 15, 13, 0, 0⟩, ⟨2024, 3, 15, 14, 0, 0⟩] []).2).outcome.isDenied
      = true := by
  have h := quota_window_enforcement ⟨"daily", 2, 30, 100, -1⟩ "analyze" ⟨7, "free"⟩ 2
    (Or.inl rfl) (by decide) (by decide)
    [⟨2024, 3, 15, 13, 0, 0⟩, ⟨2024, 3, 15, 14, 0, 0⟩] (by decide)
    (by decide) 738959 (by decide) [] (by decide)
    ⟨2024, 3, 15, 15, 0, 0⟩ (by decide) (by decide)
    ⟨2024, 3, 16, 1, 0, 0⟩ (by decide) (by decide)
  exact h.2.1

end Closetic
